import Mathlib

/-!
# Verification of the api-server key-lifecycle logic

Shallow embedding of the two backend variants in `src/api/index.js`:
the Supabase-backed variant (first half of the file) and the SQLite-backed
variant (second half). Both expose the same management surface:

* `POST /api/add`          — register a key with an expiration timestamp
* `GET  /api/get/:key`     — resolve a key's lifecycle status
* `POST /api/deleted/:key` — soft-delete (mark deleted)
* `GET  /api/logs`         — list the most recent activity-log entries

Timestamps are embedded as `Int` milliseconds since the Unix epoch (the
instant a JS `Date` denotes, i.e. `Date.prototype.getTime`).  The stored
ISO-8601 strings are uniformly produced by `toISOString`, and the code
compares parsed instants (`new Date(data.expired)`), so records carry the
instant; `isoOfMillis` is the `toISOString` rendering used whenever the
code emits or persists the textual form.
-/

set_option maxHeartbeats 1000000
set_option maxRecDepth 4000

namespace Api

/-! ## Timestamp model: a fragment of the JS `Date` builtin

`parseDate` models `new Date(s)` on the ISO-8601 date-time string format
(ECMA-262 §21.4.3.2) restricted to UTC forms: `YYYY-MM-DD`,
`YYYY-MM-DDTHH:MM:SSZ` and `YYYY-MM-DDTHH:MM:SS.sssZ`; any other input
stands for an invalid date (`NaN`), i.e. `none`.  `isoOfMillis` models
`Date.prototype.toISOString`.  Civil-calendar conversion uses the standard
days-from-civil algorithm, valid on the parser's year range 0000–9999. -/

/-- Days in a month, Gregorian rules (leap years as in ISO-8601). -/
def daysInMonth (y m : Int) : Int :=
  if m = 2 then
    if y % 4 = 0 ∧ (y % 100 ≠ 0 ∨ y % 400 = 0) then 29 else 28
  else if m = 4 ∨ m = 6 ∨ m = 9 ∨ m = 11 then 30
  else 31

/-- Days since 1970-01-01 of the civil date `y-m-d`. -/
def daysFromCivil (y m d : Int) : Int :=
  let y2 := if m ≤ 2 then y - 1 else y
  let era := (if y2 ≥ 0 then y2 else y2 - 399) / 400
  let yoe := y2 - era * 400
  let mp := (m + 9) % 12
  let doy := (153 * mp + 2) / 5 + d - 1
  let doe := yoe * 365 + yoe / 4 - yoe / 100 + doy
  era * 146097 + doe - 719468

/-- Civil date `(y, m, d)` of a day count since 1970-01-01. -/
def civilFromDays (z0 : Int) : Int × Int × Int :=
  let z := z0 + 719468
  let era := (if z ≥ 0 then z else z - 146096) / 146097
  let doe := z - era * 146097
  let yoe := (doe - doe / 1460 + doe / 36524 - doe / 146096) / 365
  let y := yoe + era * 400
  let doy := doe - (365 * yoe + yoe / 4 - yoe / 100)
  let mp := (5 * doy + 2) / 153
  let d := doy - (153 * mp + 2) / 5 + 1
  let m := if mp < 10 then mp + 3 else mp - 9
  (if m ≤ 2 then y + 1 else y, m, d)

/-- Value of a decimal digit character, `none` on a non-digit. -/
def digitVal (c : Char) : Option Nat :=
  if c.isDigit then some (c.toNat - 48) else none

/-- Read a decimal numeral; fails on any non-digit. -/
def natOfDigits : List Char → Nat → Option Nat
  | [], acc => some acc
  | c :: cs, acc =>
    match digitVal c with
    | some v => natOfDigits cs (acc * 10 + v)
    | none => none

/-- A numeral of exactly `n` digits. -/
def parseFixed (cs : List Char) (n : Nat) : Option Nat :=
  if cs.length = n then natOfDigits cs 0 else none

/-- Split a character list on a separator (like `String.splitOn` for one char). -/
def splitOnChar (sep : Char) : List Char → List (List Char)
  | [] => [[]]
  | c :: cs =>
    let r := splitOnChar sep cs
    if c = sep then [] :: r
    else
      match r with
      | [] => [[c]]
      | g :: gs => (c :: g) :: gs

/-- The `YYYY-MM-DD` date part, as UTC-midnight milliseconds. -/
def parseDateChars (cs : List Char) : Option Int :=
  match splitOnChar '-' cs with
  | [ys, ms, ds] => do
    let y ← parseFixed ys 4
    let m ← parseFixed ms 2
    let d ← parseFixed ds 2
    if 1 ≤ m ∧ m ≤ 12 ∧ 1 ≤ d ∧ (d : Int) ≤ daysInMonth y m then
      some (daysFromCivil y m d * 86400000)
    else none
  | _ => none

/-- The `HH:MM:SS[.sss]Z` time part, as milliseconds of day. -/
def parseTimeChars (cs : List Char) : Option Int :=
  match cs.reverse with
  | 'Z' :: rest =>
    (match splitOnChar ':' rest.reverse with
    | [hs, ms, ss] => do
      let h ← parseFixed hs 2
      let mi ← parseFixed ms 2
      let secFrac ←
        (match splitOnChar '.' ss with
        | [w] => do
          let sec ← parseFixed w 2
          pure (sec, 0)
        | [w, f] => do
          let sec ← parseFixed w 2
          let fr ← parseFixed f 3
          pure (sec, fr)
        | _ => none)
      if h ≤ 23 ∧ mi ≤ 59 ∧ secFrac.1 ≤ 59 then
        some (((h * 3600 + mi * 60 + secFrac.1) * 1000 + secFrac.2 : Nat) : Int)
      else none
    | _ => none)
  | _ => none

/-- Model of `new Date(s).getTime()` on the supported ISO-8601 fragment;
`none` models an invalid date (`isNaN(expiredDate.getTime())`). -/
def parseDate (s : String) : Option Int :=
  match splitOnChar 'T' s.data with
  | [d] => parseDateChars d
  | [d, t] => do
    let dayMs ← parseDateChars d
    let tms ← parseTimeChars t
    pure (dayMs + tms)
  | _ => none

/-- Decimal digits of `n`, most significant first (fuel-driven). -/
def natDigits : Nat → Nat → List Char
  | 0, _ => []
  | fuel + 1, n =>
    if n < 10 then [Char.ofNat (48 + n)]
    else natDigits fuel (n / 10) ++ [Char.ofNat (48 + n % 10)]

/-- Zero-pad a numeral to width `w`. -/
def padNat (w n : Nat) : List Char :=
  let ds := natDigits 10 n
  List.replicate (w - ds.length) '0' ++ ds

/-- Model of `Date.prototype.toISOString`: the canonical
`YYYY-MM-DDTHH:MM:SS.sssZ` rendering of an instant. -/
def isoOfMillis (t : Int) : String :=
  let day := t.ediv 86400000
  let msOfDay := (t.emod 86400000).toNat
  let c := civilFromDays day
  let h := msOfDay / 3600000
  let mi := msOfDay % 3600000 / 60000
  let sec := msOfDay % 60000 / 1000
  let ms := msOfDay % 1000
  String.mk (padNat 4 c.1.toNat ++ '-' :: padNat 2 c.2.1.toNat ++ '-' :: padNat 2 c.2.2.toNat
    ++ 'T' :: padNat 2 h ++ ':' :: padNat 2 mi ++ ':' :: padNat 2 sec
    ++ '.' :: padNat 3 ms ++ ['Z'])

/-! ## Data model

One row of `api_keys` (`api_key` is the association key; `expired`,
`created_at` are instants, `deleted` the soft-delete flag), one row of
`activity_logs`, and the whole backing store. -/

/-- The `action` column of `activity_logs`: the code writes the literals
"add" (on registration), "deleted" (on soft delete); the spec's hard
delete writes "delete". -/
inductive LogAction : Type where
  | add : LogAction
  | deleted : LogAction
  | delete : LogAction
deriving DecidableEq, Repr

/-- A row of `activity_logs`. -/
structure LogEntry : Type where
  action : LogAction
  api_key : String
  time : Int
deriving DecidableEq, Repr

/-- A row of `api_keys` (minus the `api_key` column, used as the map key). -/
structure KeyRecord : Type where
  expired : Int
  created_at : Int
  deleted : Bool
deriving DecidableEq, Repr

/-- The backing store: the `api_keys` table as an association list keyed by
`api_key`, and the `activity_logs` table in insertion order. -/
structure Db : Type where
  records : List (String × KeyRecord)
  logs : List LogEntry
deriving DecidableEq, Repr

/-! ## Lifecycle resolver — `GET /api/get/:key`

Identical logic in both variants (`src/api/index.js` lines 220–275 and
586–633): absent row → 404 "invalid"; else `deleted` → "deleted"; else
`now > expired` (strict) → "expired"; else "valid". -/

/-- The four statuses of the resolver's JSON responses, with the payload
fields each carries (`expired_time` / `created_at` are the stored ISO
strings). -/
inductive Status : Type where
  | notFound : Status
  | deleted : Status
  | expired : String → Status
  | valid : String → String → Status
deriving DecidableEq, Repr

/-- HTTP status code of a resolver response: 404 for an absent key, 200
otherwise. -/
def resolveHttp : Status → Nat
  | .notFound => 404
  | _ => 200

/-- The lifecycle resolver: the branch structure of `GET /api/get/:key`
applied to the looked-up row and the current time. -/
def resolve (rec : Option KeyRecord) (now : Int) : Status :=
  match rec with
  | none => .notFound
  | some r =>
    if r.deleted then .deleted
    else if now > r.expired then .expired (isoOfMillis r.expired)
    else .valid (isoOfMillis r.expired) (isoOfMillis r.created_at)

/-! ## Registration — `POST /api/add` -/

/-- Outcome of `POST /api/add`: 400 validation failure, 409 duplicate key,
or the success payload `(key, expired)` where `expired` is the stored
`toISOString` rendering. -/
inductive AddResult : Type where
  | validation : AddResult
  | conflict : AddResult
  | success : String → String → AddResult
deriving DecidableEq, Repr

/-- HTTP status code of a registration response. -/
def addHttp : AddResult → Nat
  | .validation => 400
  | .conflict => 409
  | .success _ _ => 200

/-- Supabase variant of `POST /api/add` (lines 131–217): reject missing
fields (`!api_key || !expired_time`; an absent body field is the empty
string here) with 400; reject an unparseable date with 400; then an
existence check (`select … eq('api_key', …)`) answers 409 before any
insertion; otherwise insert the row with `expired = toISOString`,
`created_at = now`, `deleted = false`, and append an "add" log entry. -/
def register (db : Db) (api_key expired_time : String) (now : Int) : AddResult × Db :=
  if api_key = "" ∨ expired_time = "" then (.validation, db)
  else
    match parseDate expired_time with
    | none => (.validation, db)
    | some t =>
      match db.records.lookup api_key with
      | some _ => (.conflict, db)
      | none =>
        (.success api_key (isoOfMillis t),
          { records := (api_key, { expired := t, created_at := now, deleted := false }) :: db.records,
            logs := db.logs ++ [{ action := .add, api_key := api_key, time := now }] })

/-- SQLite variant of `POST /api/add` (lines 532–583): same field and date
validation; no separate existence check — the `INSERT` itself fails on the
`UNIQUE` column constraint exactly when a row with this `api_key` exists,
and that failure is caught and mapped to the same 409; on success the row
gets `created_at = CURRENT_TIMESTAMP` (= `now`), `deleted = 0`, and an
"add" log row with `time = CURRENT_TIMESTAMP`. -/
def register2 (db : Db) (api_key expired_time : String) (now : Int) : AddResult × Db :=
  if api_key = "" ∨ expired_time = "" then (.validation, db)
  else
    match parseDate expired_time with
    | none => (.validation, db)
    | some t =>
      match db.records.lookup api_key with
      | some _ => (.conflict, db)
      | none =>
        (.success api_key (isoOfMillis t),
          { records := (api_key, { expired := t, created_at := now, deleted := false }) :: db.records,
            logs := db.logs ++ [{ action := .add, api_key := api_key, time := now }] })

/-! ## Soft delete — `POST /api/deleted/:key` -/

/-- Outcome of soft delete (and of the spec's hard delete): 404 or 200. -/
inductive DelResult : Type where
  | notFound : DelResult
  | success : DelResult
deriving DecidableEq, Repr

/-- HTTP status code of a delete response. -/
def delHttp : DelResult → Nat
  | .notFound => 404
  | .success => 200

/-- The effect of `UPDATE api_keys SET deleted = 1/true WHERE api_key = key`
on the table: every row with that key gets `deleted := true`. -/
def setDeleted (rs : List (String × KeyRecord)) (key : String) : List (String × KeyRecord) :=
  rs.map fun p => if p.1 = key then (p.1, { p.2 with deleted := true }) else p

/-- Supabase variant of `POST /api/deleted/:key` (lines 278–327): an
existence check answers 404 for an absent key; otherwise the update sets
`deleted = true` and a "deleted" log entry is appended. -/
def markDeleted (db : Db) (key : String) (now : Int) : DelResult × Db :=
  match db.records.lookup key with
  | none => (.notFound, db)
  | some _ =>
    (.success,
      { records := setDeleted db.records key,
        logs := db.logs ++ [{ action := .deleted, api_key := key, time := now }] })

/-- SQLite variant of `POST /api/deleted/:key` (lines 636–665): runs the
`UPDATE` first and answers 404 when `changes === 0`, i.e. when no row
matched the key (an update matching zero rows leaves the table as it was);
otherwise the rows are updated and a "deleted" log row inserted. -/
def markDeleted2 (db : Db) (key : String) (now : Int) : DelResult × Db :=
  let changes := db.records.countP fun p => p.1 = key
  if changes = 0 then (.notFound, db)
  else
    (.success,
      { records := setDeleted db.records key,
        logs := db.logs ++ [{ action := .deleted, api_key := key, time := now }] })

/-- Modelled from the spec: neither variant under `src/` implements the
hard delete `DELETE /delete/:api_key` (the claim's cited lines are the 404
fallback handler such a request reaches), so `purge` follows §4.4 of the
spec: 404 `NotFoundError` when the key is absent; otherwise the record is
removed entirely and a `LogEntry` with action `delete` is appended. -/
def purge (db : Db) (key : String) (now : Int) : DelResult × Db :=
  match db.records.lookup key with
  | none => (.notFound, db)
  | some _ =>
    (.success,
      { records := db.records.filter fun p => ¬ p.1 = key,
        logs := db.logs ++ [{ action := .delete, api_key := key, time := now }] })

/-! ## Activity log — `GET /api/logs`

Both variants append log rows with no retention trim, and list them with
`ORDER BY time DESC LIMIT 100` (Supabase `.order('time', ascending:false)
.limit(100)`, lines 330–348; SQLite lines 670–682). -/

/-- Appending a log row (`INSERT INTO activity_logs …`): no trimming. -/
def appendLog (logs : List LogEntry) (e : LogEntry) : List LogEntry :=
  logs ++ [e]

/-- `GET /api/logs`: the stored rows ordered by `time` descending, limited
to 100. -/
def listLogs (logs : List LogEntry) : List LogEntry :=
  (logs.insertionSort fun a b => b.time ≤ a.time).take 100

/-! ## The mutating operations, as a step relation

`register`/`register2` and `markDeleted`/`markDeleted2` are the only
routes of either variant that write to `api_keys`. -/

/-- One state-mutating request against either backend variant. -/
inductive Step : Db → Db → Prop where
  | reg (db : Db) (k raw : String) (now : Int) : Step db (register db k raw now).2
  | reg2 (db : Db) (k raw : String) (now : Int) : Step db (register2 db k raw now).2
  | del (db : Db) (k : String) (now : Int) : Step db (markDeleted db k now).2
  | del2 (db : Db) (k : String) (now : Int) : Step db (markDeleted2 db k now).2

/-! ## Concrete stores used as witnesses -/

/-- The empty store. -/
def dbEmpty : Db := { records := [], logs := [] }

/-- A store holding one live record for "k". -/
def dbK : Db :=
  { records := [("k", { expired := 9, created_at := 1, deleted := false })], logs := [] }

/-- A store holding one soft-deleted record for "k". -/
def dbKdel : Db :=
  { records := [("k", { expired := 9, created_at := 1, deleted := true })], logs := [] }

/-- A store holding one live record for "k" and one log entry. -/
def dbKlog : Db :=
  { records := [("k", { expired := 9, created_at := 1, deleted := false })],
    logs := [{ action := .add, api_key := "k", time := 1 }] }

/-- `n` log entries appended in chronological order at times `0, …, n-1`. -/
def logsN (n : Nat) : List LogEntry :=
  (List.range n).map fun i => { action := .add, api_key := "k", time := (i : Int) }

/-! ## Helper lemmas -/

theorem markDeleted_eq_of_none (db : Db) (key : String) (now : Int)
    (h : db.records.lookup key = none) :
    markDeleted db key now = (.notFound, db) := by
  unfold markDeleted
  rw [h]

theorem markDeleted_eq_of_some (db : Db) (key : String) (now : Int) (r : KeyRecord)
    (h : db.records.lookup key = some r) :
    markDeleted db key now = (.success,
      { records := setDeleted db.records key,
        logs := db.logs ++ [{ action := .deleted, api_key := key, time := now }] }) := by
  unfold markDeleted
  rw [h]

/-- The SQLite variant of `POST /api/add` coincides with the Supabase one:
the `UNIQUE`-violation path and the explicit existence check reject exactly
the same requests. -/
theorem register2_eq (db : Db) (key raw : String) (now : Int) :
    register2 db key raw now = register db key raw now := rfl

theorem lookup_eq_none_iff (rs : List (String × KeyRecord)) (k : String) :
    rs.lookup k = none ↔ ∀ p ∈ rs, ¬ p.1 = k := by
  induction rs with
  | nil => simp [List.lookup]
  | cons hd tl ih =>
    cases hk : k == hd.1 with
    | true =>
      have hk2 : k = hd.1 := by simpa using hk
      simp [List.lookup, hk, hk2.symm]
    | false =>
      have hk2 : ¬ hd.1 = k := by
        intro h
        simp [h] at hk
      simp [List.lookup, hk, ih, hk2]

theorem countP_key_eq_zero_iff (rs : List (String × KeyRecord)) (k : String) :
    (rs.countP fun p => p.1 = k) = 0 ↔ rs.lookup k = none := by
  rw [List.countP_eq_zero, lookup_eq_none_iff]
  simp

theorem lookup_cons (k a : String) (r : KeyRecord) (rs : List (String × KeyRecord)) :
    ((a, r) :: rs).lookup k = if k = a then some r else rs.lookup k := by
  by_cases h : k = a
  · subst h
    simp [List.lookup]
  · have hb : (k == a) = false := beq_eq_false_iff_ne.mpr h
    simp [List.lookup, hb, h]

theorem lookup_cons_self (a : String) (r : KeyRecord) (rs : List (String × KeyRecord)) :
    ((a, r) :: rs).lookup a = some r := by
  rw [lookup_cons, if_pos rfl]

theorem setDeleted_nil (key : String) : setDeleted [] key = [] := rfl

theorem setDeleted_cons (a : String) (r : KeyRecord) (tl : List (String × KeyRecord))
    (key : String) :
    setDeleted ((a, r) :: tl) key =
      (if a = key then (a, { r with deleted := true }) else (a, r)) :: setDeleted tl key := rfl

theorem lookup_setDeleted_self (rs : List (String × KeyRecord)) (key : String) :
    (setDeleted rs key).lookup key = (rs.lookup key).map fun r => { r with deleted := true } := by
  induction rs with
  | nil => rfl
  | cons hd tl ih =>
    obtain ⟨a, r⟩ := hd
    by_cases ha : a = key
    · subst ha
      simp [setDeleted_cons, lookup_cons]
    · have hka : ¬ key = a := fun h => ha h.symm
      simp [setDeleted_cons, ha, lookup_cons, hka, ih]

theorem lookup_setDeleted_ne (rs : List (String × KeyRecord)) (key k : String)
    (h : ¬ k = key) :
    (setDeleted rs key).lookup k = rs.lookup k := by
  induction rs with
  | nil => rfl
  | cons hd tl ih =>
    obtain ⟨a, r⟩ := hd
    by_cases ha : a = key
    · subst ha
      simp [setDeleted_cons, lookup_cons, h, ih]
    · by_cases hk : k = a
      · subst hk
        simp [setDeleted_cons, ha, lookup_cons]
      · simp [setDeleted_cons, ha, lookup_cons, hk, ih]

theorem setDeleted_idem (rs : List (String × KeyRecord)) (key : String) :
    setDeleted (setDeleted rs key) key = setDeleted rs key := by
  induction rs with
  | nil => rfl
  | cons hd tl ih =>
    obtain ⟨a, r⟩ := hd
    by_cases ha : a = key
    · subst ha
      simp [setDeleted_cons, ih]
    · simp [setDeleted_cons, ha, ih]

theorem lookup_filter_self (rs : List (String × KeyRecord)) (key : String) :
    (rs.filter fun p => ¬ p.1 = key).lookup key = none := by
  induction rs with
  | nil => rfl
  | cons hd tl ih =>
    obtain ⟨a, r⟩ := hd
    by_cases ha : a = key
    · subst ha
      simpa [List.filter_cons] using ih
    · have hka : ¬ key = a := fun h => ha h.symm
      simpa [List.filter_cons, ha, lookup_cons, hka] using ih

/-- If a key is present, inserting a fresh key or failing leaves its row
intact: `POST /api/add` never overwrites an existing record. -/
theorem register_preserves_existing (db : Db) (key raw : String) (now : Int)
    (k : String) (r : KeyRecord) (hr : db.records.lookup k = some r) :
    (register db key raw now).2.records.lookup k = some r := by
  unfold register
  split
  · exact hr
  · split
    · exact hr
    · split
      · exact hr
      · rename_i hfree
        have hne : ¬ k = key := by
          intro he
          rw [he, hfree] at hr
          cases hr
        rw [lookup_cons, if_neg hne]
        exact hr

theorem orderedInsert_append_of_lt (a : LogEntry) (xs : List LogEntry)
    (h : ∀ b ∈ xs, a.time < b.time) :
    List.orderedInsert (fun x y => y.time ≤ x.time) a xs = xs ++ [a] := by
  induction xs with
  | nil => rfl
  | cons b l ih =>
    have hb : a.time < b.time := h b (List.mem_cons_self b l)
    have : ¬ b.time ≤ a.time := not_le.mpr hb
    simp only [List.orderedInsert, if_neg this, List.cons_append]
    exact congrArg _ (ih fun c hc => h c (List.mem_cons_of_mem b hc))

theorem insertionSort_desc_of_increasing (logs : List LogEntry)
    (h : logs.Pairwise fun a b => a.time < b.time) :
    List.insertionSort (fun x y => y.time ≤ x.time) logs = logs.reverse := by
  induction logs with
  | nil => rfl
  | cons a l ih =>
    rcases List.pairwise_cons.mp h with ⟨ha, hl⟩
    simp only [List.insertionSort, ih hl, List.reverse_cons]
    exact orderedInsert_append_of_lt a l.reverse fun b hb =>
      ha b (List.mem_reverse.mp hb)

/-! ## Claims -/

/-- C1: the lifecycle resolver follows the exact four-way precedence for
every key lookup: absent record → NotFound; else `deleted` → Deleted
regardless of expiration; else `now > expiredAt` (strict) → Expired; else
Valid — in particular a record whose `expiredAt` equals `now` exactly is
still Valid. -/
theorem resolve_four_way_precedence (rec : Option KeyRecord) (now : Int) :
    (rec = none → resolve rec now = .notFound) ∧
    (∀ r, rec = some r → r.deleted = true → resolve rec now = .deleted) ∧
    (∀ r, rec = some r → r.deleted = false → now > r.expired →
      resolve rec now = .expired (isoOfMillis r.expired)) ∧
    (∀ r, rec = some r → r.deleted = false → now ≤ r.expired →
      resolve rec now = .valid (isoOfMillis r.expired) (isoOfMillis r.created_at)) := by
  refine ⟨?_, ?_, ?_, ?_⟩
  · intro h
    subst h
    rfl
  · intro r h hdel
    subst h
    simp [resolve, hdel]
  · intro r h hdel hexp
    subst h
    simp [resolve, hdel, hexp]
  · intro r h hdel hval
    subst h
    simp [resolve, hdel, not_lt.mpr hval]

/-- Witness for C1: all four branches at concrete inputs, the Valid branch
exactly at the expiration boundary `now = expiredAt`. -/
theorem resolve_four_way_precedence_witness :
    resolve none 5 = .notFound ∧
    resolve (some { expired := 5, created_at := 0, deleted := true }) 99 = .deleted ∧
    resolve (some { expired := 5, created_at := 0, deleted := false }) 6 =
      .expired (isoOfMillis 5) ∧
    resolve (some { expired := 5, created_at := 0, deleted := false }) 5 =
      .valid (isoOfMillis 5) (isoOfMillis 0) :=
  ⟨(resolve_four_way_precedence none 5).1 rfl,
   (resolve_four_way_precedence (some { expired := 5, created_at := 0, deleted := true }) 99).2.1
     { expired := 5, created_at := 0, deleted := true } rfl rfl,
   (resolve_four_way_precedence (some { expired := 5, created_at := 0, deleted := false }) 6).2.2.1
     { expired := 5, created_at := 0, deleted := false } rfl rfl (by decide),
   (resolve_four_way_precedence (some { expired := 5, created_at := 0, deleted := false }) 5).2.2.2
     { expired := 5, created_at := 0, deleted := false } rfl rfl (by decide)⟩

/-- C2: for every unused key and parseable expiration timestamp, `register`
(in both variants) succeeds, persists a record with `createdAt = now` and
`deleted = false`, appends an "add" log entry, and afterwards resolving the
key one second before `expiredAt` yields Valid and one second after yields
Expired. -/
theorem register_success_lifecycle (db : Db) (key raw : String) (now t : Int)
    (hk : ¬ key = "") (hraw : ¬ raw = "") (ht : parseDate raw = some t)
    (hfree : db.records.lookup key = none) :
    (register db key raw now).1 = .success key (isoOfMillis t) ∧
    register2 db key raw now = register db key raw now ∧
    (register db key raw now).2.records.lookup key =
      some { expired := t, created_at := now, deleted := false } ∧
    (register db key raw now).2.logs =
      db.logs ++ [{ action := .add, api_key := key, time := now }] ∧
    resolve ((register db key raw now).2.records.lookup key) (t - 1000) =
      .valid (isoOfMillis t) (isoOfMillis now) ∧
    resolve ((register db key raw now).2.records.lookup key) (t + 1000) =
      .expired (isoOfMillis t) := by
  have hreg : register db key raw now =
      (.success key (isoOfMillis t),
        { records := (key, { expired := t, created_at := now, deleted := false }) :: db.records,
          logs := db.logs ++ [{ action := .add, api_key := key, time := now }] }) := by
    unfold register
    rw [if_neg (by simp [hk, hraw]), ht, hfree]
  refine ⟨by rw [hreg], register2_eq db key raw now, ?_, by rw [hreg], ?_, ?_⟩
  · rw [hreg]
    exact lookup_cons_self key _ db.records
  · rw [hreg]
    simp only [lookup_cons_self, resolve]
    rw [if_neg (by simp), if_neg (by omega)]
  · rw [hreg]
    simp only [lookup_cons_self, resolve]
    rw [if_neg (by simp), if_pos (by omega)]

/-- Witness for C2: registering "abc" with expiration
2099-01-01T00:00:00Z (instant 4070908800000 ms) on the empty store. -/
theorem register_success_lifecycle_witness :
    (register { records := [], logs := [] } "abc" "2099-01-01T00:00:00Z" 0).1 =
      .success "abc" (isoOfMillis 4070908800000) ∧
    register2 { records := [], logs := [] } "abc" "2099-01-01T00:00:00Z" 0 =
      register { records := [], logs := [] } "abc" "2099-01-01T00:00:00Z" 0 ∧
    (register { records := [], logs := [] } "abc" "2099-01-01T00:00:00Z" 0).2.records.lookup "abc" =
      some { expired := 4070908800000, created_at := 0, deleted := false } ∧
    (register { records := [], logs := [] } "abc" "2099-01-01T00:00:00Z" 0).2.logs =
      [] ++ [{ action := .add, api_key := "abc", time := 0 }] ∧
    resolve ((register { records := [], logs := [] } "abc" "2099-01-01T00:00:00Z" 0).2.records.lookup "abc")
        (4070908800000 - 1000) = .valid (isoOfMillis 4070908800000) (isoOfMillis 0) ∧
    resolve ((register { records := [], logs := [] } "abc" "2099-01-01T00:00:00Z" 0).2.records.lookup "abc")
        (4070908800000 + 1000) = .expired (isoOfMillis 4070908800000) :=
  register_success_lifecycle { records := [], logs := [] } "abc" "2099-01-01T00:00:00Z" 0
    4070908800000 (by decide) (by decide) (by decide) rfl

/-- C3: for every key that already has a record, `register` fails with
ConflictError (HTTP 409) regardless of the (parseable) new expiration
value, in both the check-then-insert variant and the variant whose
uniqueness violation comes from the backend constraint; the store is
untouched. -/
theorem register_conflict (db : Db) (key raw : String) (now t : Int) (r : KeyRecord)
    (hk : ¬ key = "") (hraw : ¬ raw = "") (ht : parseDate raw = some t)
    (hex : db.records.lookup key = some r) :
    register db key raw now = (.conflict, db) ∧
    register2 db key raw now = (.conflict, db) ∧
    addHttp .conflict = 409 := by
  have h1 : register db key raw now = (.conflict, db) := by
    unfold register
    rw [if_neg (by simp [hk, hraw]), ht, hex]
  exact ⟨h1, (register2_eq db key raw now).trans h1, rfl⟩

/-- Witness for C3: re-registering "abc" with a different expiration on a
store that already holds it. -/
theorem register_conflict_witness :
    register { records := [("abc", { expired := 0, created_at := 0, deleted := false })], logs := [] }
        "abc" "2099-01-01" 7 = (.conflict,
      { records := [("abc", { expired := 0, created_at := 0, deleted := false })], logs := [] }) ∧
    register2 { records := [("abc", { expired := 0, created_at := 0, deleted := false })], logs := [] }
        "abc" "2099-01-01" 7 = (.conflict,
      { records := [("abc", { expired := 0, created_at := 0, deleted := false })], logs := [] }) ∧
    addHttp .conflict = 409 :=
  register_conflict _ "abc" "2099-01-01" 7 4070908800000 _
    (by decide) (by decide) (by decide) rfl

/-- C7: `register` fails with ValidationError (HTTP 400) whenever the key
is empty/absent or the raw expiration input does not parse as a valid
timestamp; the store is returned unchanged, so no record is created and no
log entry is appended. -/
theorem register_validation (db : Db) (key raw : String) (now : Int)
    (h : key = "" ∨ raw = "" ∨ parseDate raw = none) :
    register db key raw now = (.validation, db) ∧
    register2 db key raw now = (.validation, db) ∧
    addHttp .validation = 400 := by
  have h1 : register db key raw now = (.validation, db) := by
    unfold register
    rcases h with h | h | h
    · rw [if_pos (Or.inl h)]
    · rw [if_pos (Or.inr h)]
    · by_cases hk : key = "" ∨ raw = ""
      · rw [if_pos hk]
      · rw [if_neg hk, h]
  exact ⟨h1, (register2_eq db key raw now).trans h1, rfl⟩

/-- Witness for C7: a missing key and a malformed date, on a nonempty
store that stays untouched. -/
theorem register_validation_witness :
    register { records := [], logs := [] } "" "2099-01-01" 0 =
      (.validation, { records := [], logs := [] }) ∧
    register2 { records := [], logs := [] } "" "2099-01-01" 0 =
      (.validation, { records := [], logs := [] }) ∧
    addHttp .validation = 400 :=
  register_validation { records := [], logs := [] } "" "2099-01-01" 0 (Or.inl rfl)

theorem markDeleted_records_cases (db : Db) (k0 : String) (now0 : Int) :
    (markDeleted db k0 now0).2.records = db.records ∨
    (markDeleted db k0 now0).2.records = setDeleted db.records k0 := by
  unfold markDeleted
  cases hl : db.records.lookup k0 with
  | none => exact Or.inl rfl
  | some r0 => exact Or.inr rfl

theorem markDeleted2_records_cases (db : Db) (k0 : String) (now0 : Int) :
    (markDeleted2 db k0 now0).2.records = db.records ∨
    (markDeleted2 db k0 now0).2.records = setDeleted db.records k0 := by
  unfold markDeleted2
  by_cases hc : (db.records.countP fun p => p.1 = k0) = 0
  · rw [if_pos hc]
    exact Or.inl rfl
  · rw [if_neg hc]
    exact Or.inr rfl

/-- C4: `markDeleted` (both variants) fails with NotFoundError (404)
exactly when no record exists for the key; otherwise it sets
`deleted = true` on the existing record, appends a "deleted" log entry,
and is idempotent: a second call on the already-deleted record succeeds
and leaves the records as they were. -/
theorem markDeleted_contract (db : Db) (key : String) (now now2 : Int) :
    (db.records.lookup key = none →
      markDeleted db key now = (.notFound, db) ∧
      markDeleted2 db key now = (.notFound, db) ∧
      delHttp .notFound = 404) ∧
    (∀ r, db.records.lookup key = some r →
      markDeleted db key now = (.success,
        { records := setDeleted db.records key,
          logs := db.logs ++ [{ action := .deleted, api_key := key, time := now }] }) ∧
      markDeleted2 db key now = markDeleted db key now ∧
      (markDeleted db key now).2.records.lookup key = some { r with deleted := true } ∧
      (markDeleted (markDeleted db key now).2 key now2).1 = .success ∧
      (markDeleted (markDeleted db key now).2 key now2).2.records =
        (markDeleted db key now).2.records) := by
  constructor
  · intro h
    refine ⟨markDeleted_eq_of_none db key now h, ?_, rfl⟩
    unfold markDeleted2
    rw [if_pos ((countP_key_eq_zero_iff _ _).mpr h)]
  · intro r h
    have hcnt : ¬ (db.records.countP fun p => p.1 = key) = 0 := by
      intro hc
      rw [(countP_key_eq_zero_iff _ _).mp hc] at h
      cases h
    have h1 := markDeleted_eq_of_some db key now r h
    have hl : (markDeleted db key now).2.records.lookup key = some { r with deleted := true } := by
      rw [h1, lookup_setDeleted_self, h]
      rfl
    have h3 := markDeleted_eq_of_some (markDeleted db key now).2 key now2 _ hl
    refine ⟨h1, ?_, hl, by rw [h3], ?_⟩
    · unfold markDeleted2
      rw [if_neg hcnt, h1]
    · rw [h3, h1]
      exact setDeleted_idem db.records key

/-- Witness for C4: the soft-delete contract instantiated on a one-record
store, its deleted branch exercised at key "k", and a second soft delete of
an already-deleted record succeeding. -/
theorem markDeleted_contract_witness :
    (∀ r, dbK.records.lookup "k" = some r →
      markDeleted dbK "k" 3 = (.success,
        { records := setDeleted dbK.records "k",
          logs := dbK.logs ++ [{ action := .deleted, api_key := "k", time := 3 }] }) ∧
      markDeleted2 dbK "k" 3 = markDeleted dbK "k" 3 ∧
      (markDeleted dbK "k" 3).2.records.lookup "k" = some { r with deleted := true } ∧
      (markDeleted (markDeleted dbK "k" 3).2 "k" 4).1 = .success ∧
      (markDeleted (markDeleted dbK "k" 3).2 "k" 4).2.records =
        (markDeleted dbK "k" 3).2.records) ∧
    (dbK.records.lookup "x" = none →
      markDeleted dbK "x" 3 = (.notFound, dbK) ∧
      markDeleted2 dbK "x" 3 = (.notFound, dbK) ∧
      delHttp .notFound = 404) ∧
    dbK.records.lookup "x" = none ∧
    dbK.records.lookup "k" = some { expired := 9, created_at := 1, deleted := false } :=
  ⟨(markDeleted_contract dbK "k" 3 4).2, (markDeleted_contract dbK "x" 3 4).1,
    by decide, by decide⟩

/-- C9: `markDeleted` is atomic on failure: when the key is absent it
reports NotFoundError and leaves both stores unchanged — in particular no
"deleted" log entry is appended. -/
theorem markDeleted_absent_atomic (db : Db) (key : String) (now : Int)
    (h : db.records.lookup key = none) :
    markDeleted db key now = (.notFound, db) ∧
    markDeleted2 db key now = (.notFound, db) ∧
    (markDeleted db key now).2.records = db.records ∧
    (markDeleted db key now).2.logs = db.logs ∧
    (markDeleted2 db key now).2.logs = db.logs := by
  have h1 : markDeleted db key now = (.notFound, db) := by
    unfold markDeleted
    rw [h]
  have h2 : markDeleted2 db key now = (.notFound, db) := by
    unfold markDeleted2
    rw [if_pos ((countP_key_eq_zero_iff _ _).mpr h)]
  exact ⟨h1, h2, by rw [h1], by rw [h1], by rw [h2]⟩

/-- Witness for C9: soft-deleting an absent key on a store with one other
record and a nonempty log. -/
theorem markDeleted_absent_atomic_witness :
    markDeleted dbKlog "x" 3 = (.notFound, dbKlog) ∧
    markDeleted2 dbKlog "x" 3 = (.notFound, dbKlog) ∧
    (markDeleted dbKlog "x" 3).2.records = dbKlog.records ∧
    (markDeleted dbKlog "x" 3).2.logs = dbKlog.logs ∧
    (markDeleted2 dbKlog "x" 3).2.logs = dbKlog.logs :=
  markDeleted_absent_atomic dbKlog "x" 3 (by decide)

/-- C5: the spec-modelled hard delete fails with NotFoundError if the key
is absent, otherwise removes the record entirely and appends a "delete"
log entry; after a purge, `resolve` for that key returns NotFound at every
time (distinct from Deleted), and a subsequent `register` of the same key
succeeds — no tombstone effect. -/
theorem purge_contract (db : Db) (key : String) (now : Int) :
    (db.records.lookup key = none →
      purge db key now = (.notFound, db) ∧ delHttp .notFound = 404) ∧
    (∀ r, db.records.lookup key = some r →
      (purge db key now).1 = .success ∧
      (purge db key now).2.records.lookup key = none ∧
      (purge db key now).2.logs =
        db.logs ++ [{ action := .delete, api_key := key, time := now }] ∧
      (∀ anytime : Int, resolve ((purge db key now).2.records.lookup key) anytime = .notFound) ∧
      (∀ raw now2 t, ¬ key = "" → ¬ raw = "" → parseDate raw = some t →
        (register (purge db key now).2 key raw now2).1 = .success key (isoOfMillis t))) := by
  constructor
  · intro h
    constructor
    · unfold purge
      rw [h]
    · rfl
  · intro r h
    have h1 : purge db key now = (.success,
        { records := db.records.filter fun p => ¬ p.1 = key,
          logs := db.logs ++ [{ action := .delete, api_key := key, time := now }] }) := by
      unfold purge
      rw [h]
    have hn : (purge db key now).2.records.lookup key = none := by
      rw [h1]
      exact lookup_filter_self db.records key
    refine ⟨by rw [h1], hn, by rw [h1], ?_, ?_⟩
    · intro anytime
      rw [hn]
      rfl
    · intro raw now2 t hk hraw ht
      have h2 : register (purge db key now).2 key raw now2 =
          (.success key (isoOfMillis t),
            { records := (key, { expired := t, created_at := now2, deleted := false }) ::
                (purge db key now).2.records,
              logs := (purge db key now).2.logs ++
                [{ action := .add, api_key := key, time := now2 }] }) := by
        unfold register
        rw [if_neg (by simp [hk, hraw]), ht, hn]
      rw [h2]

/-- Witness for C5: purging the only (soft-deleted) record, then checking
the absent branch on the purged store and re-registering the same key. -/
theorem purge_contract_witness :
    dbKdel.records.lookup "k" = some { expired := 9, created_at := 1, deleted := true } ∧
    ((purge dbKdel "k" 3).1 = .success ∧
      (purge dbKdel "k" 3).2.records.lookup "k" = none ∧
      (purge dbKdel "k" 3).2.logs =
        dbKdel.logs ++ [{ action := .delete, api_key := "k", time := 3 }] ∧
      (∀ anytime : Int, resolve ((purge dbKdel "k" 3).2.records.lookup "k") anytime = .notFound) ∧
      (∀ raw now2 t, ¬ "k" = "" → ¬ raw = "" → parseDate raw = some t →
        (register (purge dbKdel "k" 3).2 "k" raw now2).1 = .success "k" (isoOfMillis t))) :=
  ⟨by decide,
   (purge_contract dbKdel "k" 3).2 { expired := 9, created_at := 1, deleted := true } (by decide)⟩

/-- C8: the deleted flag is monotonic: it starts false at creation, and
across every mutating operation of either variant, once a record's
`deleted` is true the key still maps to a deleted record afterwards —
never reset to false. -/
theorem deleted_monotonic (db db2 : Db) (hstep : Step db db2) (k : String) (r : KeyRecord)
    (hr : db.records.lookup k = some r) (hdel : r.deleted = true) :
    ∃ r2, db2.records.lookup k = some r2 ∧ r2.deleted = true := by
  cases hstep with
  | reg key raw now0 =>
    exact ⟨r, register_preserves_existing db key raw now0 k r hr, hdel⟩
  | reg2 key raw now0 =>
    rw [register2_eq]
    exact ⟨r, register_preserves_existing db key raw now0 k r hr, hdel⟩
  | del k0 now0 =>
    rcases markDeleted_records_cases db k0 now0 with hc | hc
    · exact ⟨r, by rw [hc]; exact hr, hdel⟩
    · by_cases hk : k = k0
      · subst hk
        exact ⟨{ r with deleted := true }, by rw [hc, lookup_setDeleted_self, hr]; rfl, rfl⟩
      · exact ⟨r, by rw [hc, lookup_setDeleted_ne _ _ _ hk]; exact hr, hdel⟩
  | del2 k0 now0 =>
    rcases markDeleted2_records_cases db k0 now0 with hc | hc
    · exact ⟨r, by rw [hc]; exact hr, hdel⟩
    · by_cases hk : k = k0
      · subst hk
        exact ⟨{ r with deleted := true }, by rw [hc, lookup_setDeleted_self, hr]; rfl, rfl⟩
      · exact ⟨r, by rw [hc, lookup_setDeleted_ne _ _ _ hk]; exact hr, hdel⟩

/-- Witness for C8: a deleted record stays deleted across a soft delete of
the same key. -/
theorem deleted_monotonic_witness :
    ∃ r2, (markDeleted dbKdel "k" 3).2.records.lookup "k" = some r2 ∧ r2.deleted = true :=
  deleted_monotonic dbKdel _ (Step.del dbKdel "k" 3)
    "k" { expired := 9, created_at := 1, deleted := true } (by decide) rfl

/-- C6 counterexample: after appending 150 log entries (times 0…149),
listing does NOT return the 100 most recent in their original relative
order (`drop 50` of the appended sequence) — the query orders them
most-recent-first. -/
theorem listLogs_not_original_order : ¬ listLogs (logsN 150) = (logsN 150).drop 50 := by
  decide

/-- C6 amended: the log store itself is append-only and unbounded (no trim
on append); the 100-entry bound is applied by the listing query, which
returns exactly the 100 most recent entries in reverse chronological
(most-recent-first) order — for entries appended at strictly increasing
times, the reverse of the appended order, truncated to 100. -/
theorem listLogs_bounded_most_recent_first (logs : List LogEntry)
    (hinc : logs.Pairwise fun a b => a.time < b.time) :
    listLogs logs = logs.reverse.take 100 ∧
    ∀ e, appendLog logs e = logs ++ [e] := by
  refine ⟨?_, fun e => rfl⟩
  unfold listLogs
  rw [insertionSort_desc_of_increasing logs hinc]

/-- Witness for C6 (amended): 150 appended entries; the listing is the
reverse of the appended sequence truncated to its 100 most recent. -/
theorem listLogs_bounded_most_recent_first_witness :
    listLogs (logsN 150) = (logsN 150).reverse.take 100 ∧
    ∀ e, appendLog (logsN 150) e = logsN 150 ++ [e] :=
  listLogs_bounded_most_recent_first (logsN 150) (by decide)

/-- C10: `register` normalizes the expiration input: for every parseable
expiration string the persisted value and the `expired` field echoed in
the success payload are the ISO-8601 rendering of the parsed instant, not
the caller's raw input string, so textually different inputs denoting the
same instant produce identical stored expirations (in both variants). -/
theorem register_normalizes_expiration (db : Db) (key raw1 raw2 : String) (now t : Int)
    (hk : ¬ key = "") (h1 : ¬ raw1 = "") (h2 : ¬ raw2 = "")
    (ht1 : parseDate raw1 = some t) (ht2 : parseDate raw2 = some t)
    (hfree : db.records.lookup key = none) :
    (register db key raw1 now).1 = .success key (isoOfMillis t) ∧
    (register2 db key raw1 now).1 = .success key (isoOfMillis t) ∧
    (register db key raw1 now).2.records.lookup key =
      some { expired := t, created_at := now, deleted := false } ∧
    register db key raw1 now = register db key raw2 now ∧
    register2 db key raw1 now = register2 db key raw2 now := by
  have e1 : register db key raw1 now =
      (.success key (isoOfMillis t),
        { records := (key, { expired := t, created_at := now, deleted := false }) :: db.records,
          logs := db.logs ++ [{ action := .add, api_key := key, time := now }] }) := by
    unfold register
    rw [if_neg (by simp [hk, h1]), ht1, hfree]
  have e2 : register db key raw2 now =
      (.success key (isoOfMillis t),
        { records := (key, { expired := t, created_at := now, deleted := false }) :: db.records,
          logs := db.logs ++ [{ action := .add, api_key := key, time := now }] }) := by
    unfold register
    rw [if_neg (by simp [hk, h2]), ht2, hfree]
  refine ⟨by rw [e1], by rw [register2_eq, e1], ?_, e1.trans e2.symm, ?_⟩
  · rw [e1]
    exact lookup_cons_self key _ db.records
  · rw [register2_eq, register2_eq]
    exact e1.trans e2.symm

/-- Witness for C10: "2099-01-01T00:00:00Z" and "2099-01-01" denote the
same instant 4070908800000; registering either stores the same record, and
the echoed/persisted rendering is the canonical
"2099-01-01T00:00:00.000Z", which differs textually from both inputs. -/
theorem register_normalizes_expiration_witness :
    ((register dbEmpty "abc" "2099-01-01T00:00:00Z" 7).1 =
      .success "abc" (isoOfMillis 4070908800000) ∧
    (register2 dbEmpty "abc" "2099-01-01T00:00:00Z" 7).1 =
      .success "abc" (isoOfMillis 4070908800000) ∧
    (register dbEmpty "abc" "2099-01-01T00:00:00Z" 7).2.records.lookup "abc" =
      some { expired := 4070908800000, created_at := 7, deleted := false } ∧
    register dbEmpty "abc" "2099-01-01T00:00:00Z" 7 = register dbEmpty "abc" "2099-01-01" 7 ∧
    register2 dbEmpty "abc" "2099-01-01T00:00:00Z" 7 = register2 dbEmpty "abc" "2099-01-01" 7) ∧
    isoOfMillis 4070908800000 = "2099-01-01T00:00:00.000Z" ∧
    ¬ isoOfMillis 4070908800000 = "2099-01-01T00:00:00Z" ∧
    ¬ isoOfMillis 4070908800000 = "2099-01-01" :=
  ⟨register_normalizes_expiration dbEmpty "abc" "2099-01-01T00:00:00Z" "2099-01-01" 7
      4070908800000 (by decide) (by decide) (by decide) (by decide) (by decide) rfl,
   by decide, by decide, by decide⟩

end Api
